import Mathlib

/-!
Verification of the segmentation-and-annotation engine of the
`chinese_word_highligher` repository (`src/App.vue`, `processScript` and its
inner helper `GetSegmentsInCsv`).

Strings are modelled as lists of characters (`Str`); JavaScript objects used
as dictionaries are modelled as insertion-ordered association lists with
lookup returning the first binding.  The main loop of `processScript` is
modelled with a fuel parameter equal to the length of the input text: a step
that fails to advance the cursor (which makes the JavaScript loop run
forever) is modelled as `none`.
-/

set_option maxHeartbeats 1600000

abbrev Str := List Char

/-- One value entry of the CC-CEDICT dictionary (`Dictionary` in the source):
`{ pinyin: string; meaning: string }`. -/
structure DictEntry where
  pinyin : Str
  meaning : Str
deriving DecidableEq, Repr

/-- One value entry of the curriculum dictionary (`CsvDictionary` in the
source): `{ chapter; pinyin; category; meaning }`. -/
structure CsvEntry where
  chapter : Str
  pinyin : Str
  category : Str
  meaning : Str
deriving DecidableEq, Repr

/-- `ccCedict`: word → non-empty list of entries, modelled as an
insertion-ordered association list. -/
abbrev Dict := List (Str × List DictEntry)

/-- `csvDictionary`: word → list of curriculum entries. -/
abbrev CsvDict := List (Str × List CsvEntry)

/-- Segment kind: `'found' | 'not-found' | 'unknown'` in the source. -/
inductive SegType where
  | found
  | notFound
  | unknown
deriving DecidableEq, Repr

/-- Bool test for the `not-found` kind, used when filtering segments. -/
def SegType.isNF : SegType → Bool
  | SegType.notFound => true
  | _ => false

/-- The runtime shape of the `data` field of a processed segment.  The
source's type annotation declares an array of records, but the Latin-letter
branch pushes a bare object `{pinyin: ...}`; both shapes are represented. -/
inductive SegData where
  | latinObj (pinyin : Str)
  | csvArr (l : List CsvEntry)
  | dictArr (l : List DictEntry)
deriving DecidableEq, Repr

/-- `ProcessedSegment` of the source: text, kind, optional data. -/
structure ProcessedSegment where
  text : Str
  type : SegType
  data : Option SegData
deriving DecidableEq, Repr

/-- `UnknownWord` of the source: `{index, word, pinyin, meaning}`. -/
structure UnknownWord where
  index : Nat
  word : Str
  pinyin : Str
  meaning : Str
deriving DecidableEq, Repr

/-- Observable output state of the component: `processedOutput` and
`unknownWords` refs. -/
structure AppState where
  processedOutput : List ProcessedSegment
  unknownWords : List UnknownWord
deriving DecidableEq, Repr

/-- Lookup in a JavaScript object modelled as an association list: the first
binding of the key wins (keys of a JS object are unique anyway). -/
def assocLookup {α : Type} : List (Str × α) → Str → Option α
  | [], _ => none
  | (k, v) :: rest, w => if k = w then some v else assocLookup rest w

/-- Stable insertion of a word into a list sorted by descending length,
placing it before the first strictly shorter element (so that, as with the
stable JavaScript `sort`, equal-length words keep their original order). -/
def insertLenDesc (w : Str) : List Str → List Str
  | [] => [w]
  | x :: xs => if x.length ≤ w.length then w :: x :: xs else x :: insertLenDesc w xs

/-- `Object.keys(ccCedict.value).sort((a, b) => b.length - a.length)`:
stable sort of the keys by descending length. -/
def sortLenDesc : List Str → List Str
  | [] => []
  | x :: xs => insertLenDesc x (sortLenDesc xs)

/-- `cedictWords` of the source: the dictionary keys, longest first. -/
def cedictWords (lex : Dict) : List Str :=
  sortLenDesc (lex.map Prod.fst)

/-- The `for (const word of cedictWords) if (scriptText.startsWith(word, i))`
search: first key, in descending-length order, that is a prefix of the
remaining text. -/
def cedictFind (lex : Dict) (s : Str) : Option Str :=
  (cedictWords lex).find? (fun w => w.isPrefixOf s)

/-- The `for (const word in csvDictionary.value)` fallback search: first
curriculum key, in insertion order, that is a prefix of the remaining text. -/
def csvFind (csv : CsvDict) (s : Str) : Option Str :=
  (csv.map Prod.fst).find? (fun w => w.isPrefixOf s)

/-- The split-point scan of `GetSegmentsInCsv`: for each candidate index in
order, if both halves of the word are curriculum keys, return them. -/
def findSplit (csv : CsvDict) (word : Str) : List Nat → Option (List Str)
  | [] => none
  | k :: ks =>
    if (assocLookup csv (word.take k)).isSome && (assocLookup csv (word.drop k)).isSome then
      some [word.take k, word.drop k]
    else findSplit csv word ks

/-- `GetSegmentsInCsv(word)` of the source: direct curriculum hit gives the
word itself; otherwise the first split `1 ≤ i < word.length` whose two halves
are both curriculum keys; otherwise `null`. -/
def GetSegmentsInCsv (csv : CsvDict) (word : Str) : Option (List Str) :=
  if (assocLookup csv word).isSome then some [word]
  else findSplit csv word (List.range' 1 (word.length - 1))

/-- The test `scriptText[i].match(/[a-z]/i)`: ASCII Latin letter, either
case (a non-unicode case-insensitive regex canonicalises only within
ASCII). -/
def isLatin (c : Char) : Bool :=
  ('a' ≤ c && c ≤ 'z') || ('A' ≤ c && c ≤ 'Z')

/-- The test `!scriptText[i].trim()`: the character is ECMAScript
whitespace (WhiteSpace or LineTerminator, removed by `String.trim`). -/
def isJsWhitespace (c : Char) : Bool :=
  ['\x20', '\x09', '\x0B', '\x0C', '\x0D', '\x0A', '\u00A0', '\u1680',
   '\u2000', '\u2001', '\u2002', '\u2003', '\u2004', '\u2005', '\u2006',
   '\u2007', '\u2008', '\u2009', '\u200A', '\u2028', '\u2029', '\u202F',
   '\u205F', '\u3000', '\uFEFF'].contains c

/-- Result of one iteration of the `while (i < scriptText.length)` loop:
segments pushed to `results`, amount added to the cursor `i`, and words
added to `unknownSet`. -/
structure StepResult where
  segs : List ProcessedSegment
  consumed : Nat
  ukAdds : List Str
deriving DecidableEq, Repr

/-- One iteration of the main loop of `processScript`, acting on the suffix
of the text starting at the cursor. -/
def stepSeg (lex : Dict) (csv : CsvDict) : Str → StepResult
  | [] => ⟨[], 0, []⟩
  | c :: rest =>
    if c = '\n' then ⟨[⟨['\n'], SegType.unknown, none⟩], 1, []⟩
    else if isLatin c then ⟨[⟨[c], SegType.found, some (SegData.latinObj [c])⟩], 1, []⟩
    else if isJsWhitespace c then ⟨[], 1, []⟩
    else
      match cedictFind lex (c :: rest) with
      | some word =>
        match GetSegmentsInCsv csv word with
        | some vsegs =>
          ⟨vsegs.map (fun t => ⟨t, SegType.found, (assocLookup csv t).map SegData.csvArr⟩),
           word.length, []⟩
        | none =>
          ⟨[⟨word, SegType.notFound, (assocLookup lex word).map SegData.dictArr⟩],
           word.length, [word]⟩
      | none =>
        match csvFind csv (c :: rest) with
        | some word =>
          ⟨[⟨word, SegType.found, (assocLookup csv word).map SegData.csvArr⟩], word.length, []⟩
        | none => ⟨[], 1, []⟩

/-- `unknownSet.add(word)`: a JavaScript `Set` keeps insertion order and
ignores re-insertions. -/
def setAdd (l : List Str) (w : Str) : List Str :=
  if w ∈ l then l else l ++ [w]

/-- Adding a batch of words to the set, in order. -/
def foldAdd (l : List Str) (ws : List Str) : List Str :=
  ws.foldl setAdd l

/-- Deduplication keeping the first occurrence (what accumulating into an
insertion-ordered set does). -/
def dedupFirst (ws : List Str) : List Str :=
  foldAdd [] ws

/-- The main loop of `processScript`, with fuel.  A step that does not
advance the cursor makes the JavaScript loop run forever; that and fuel
exhaustion are modelled as `none`. -/
def processLoopFuel (lex : Dict) (csv : CsvDict) :
    Nat → Str → List Str → Option (List ProcessedSegment × List Str)
  | _, [], uk => some ([], uk)
  | 0, _ :: _, _ => none
  | fuel + 1, c :: rest, uk =>
    if (stepSeg lex csv (c :: rest)).consumed = 0 then none
    else
      match processLoopFuel lex csv fuel
          ((c :: rest).drop (stepSeg lex csv (c :: rest)).consumed)
          (foldAdd uk (stepSeg lex csv (c :: rest)).ukAdds) with
      | some (restSegs, uk') => some ((stepSeg lex csv (c :: rest)).segs ++ restSegs, uk')
      | none => none

/-- `ccCedict.value[word]?.[0]?.pinyin || ""`. -/
def ukPinyin (lex : Dict) (w : Str) : Str :=
  match assocLookup lex w with
  | some (e :: _) => e.pinyin
  | _ => []

/-- `ccCedict.value[word]?.[0]?.meaning || ""`. -/
def ukMeaning (lex : Dict) (w : Str) : Str :=
  match assocLookup lex w with
  | some (e :: _) => e.meaning
  | _ => []

/-- `Array.from(unknownSet).map((word, index) => ...)`: build the unknown
word records, `index` starting at `idx + 1`. -/
def mkUnknownWords (lex : Dict) (idx : Nat) : List Str → List UnknownWord
  | [] => []
  | w :: ws => ⟨idx + 1, w, ukPinyin lex w, ukMeaning lex w⟩ :: mkUnknownWords lex (idx + 1) ws

/-- The error segment pushed when the dictionary is empty. -/
def errorSegment : ProcessedSegment :=
  ⟨"Error: Dictionary not loaded or empty.".toList, SegType.notFound, none⟩

/-- `processScript` of the source.  With an empty `ccCedict` it pushes an
error segment onto the existing `processedOutput` and returns; otherwise it
replaces `processedOutput` with the loop's results and `unknownWords` with
the records built from the accumulated set.  `none` models a call that never
returns. -/
def processScript (lex : Dict) (csv : CsvDict) (text : Str) (st : AppState) :
    Option AppState :=
  if lex = [] then
    some { st with processedOutput := st.processedOutput ++ [errorSegment] }
  else
    match processLoopFuel lex csv text.length text [] with
    | some (segs, uk) => some ⟨segs, mkUnknownWords lex 0 uk⟩
    | none => none

/-- Concatenation of the text fields of a list of segments. -/
def segConcat (segs : List ProcessedSegment) : Str :=
  (segs.map ProcessedSegment.text).flatten

/-! ### Helper lemmas about the sorted key list -/

theorem mem_insertLenDesc {w x : Str} {l : List Str} :
    x ∈ insertLenDesc w l ↔ x = w ∨ x ∈ l := by
  induction l with
  | nil => simp [insertLenDesc]
  | cons y ys ih =>
    by_cases h : y.length ≤ w.length
    · simp [insertLenDesc, h]
    · simp [insertLenDesc, h, ih]
      tauto

theorem mem_sortLenDesc {x : Str} {l : List Str} :
    x ∈ sortLenDesc l ↔ x ∈ l := by
  induction l with
  | nil => simp [sortLenDesc]
  | cons y ys ih =>
    simp [sortLenDesc, mem_insertLenDesc, ih]

theorem pairwise_insertLenDesc {w : Str} {l : List Str}
    (h : l.Pairwise (fun a b => b.length ≤ a.length)) :
    (insertLenDesc w l).Pairwise (fun a b => b.length ≤ a.length) := by
  induction l with
  | nil => simp [insertLenDesc]
  | cons y ys ih =>
    rcases List.pairwise_cons.1 h with ⟨hy, hys⟩
    by_cases hl : y.length ≤ w.length
    · simp only [insertLenDesc, if_pos hl]
      refine List.pairwise_cons.2 ⟨?_, h⟩
      intro z hz
      rcases List.mem_cons.1 hz with rfl | hz
      · exact hl
      · exact Nat.le_trans (hy z hz) hl
    · simp only [insertLenDesc, if_neg hl]
      refine List.pairwise_cons.2 ⟨?_, ih hys⟩
      intro z hz
      rcases mem_insertLenDesc.1 hz with rfl | hz
      · exact Nat.le_of_not_le hl
      · exact hy z hz

theorem pairwise_sortLenDesc (l : List Str) :
    (sortLenDesc l).Pairwise (fun a b => b.length ≤ a.length) := by
  induction l with
  | nil => simp [sortLenDesc]
  | cons y ys ih => exact pairwise_insertLenDesc ih

theorem find?_pairwise_max {p : Str → Bool} {l : List Str} {w : Str}
    (hp : l.Pairwise (fun a b => b.length ≤ a.length))
    (h : l.find? p = some w) :
    ∀ k ∈ l, p k = true → k.length ≤ w.length := by
  induction l with
  | nil => simp at h
  | cons x xs ih =>
    rcases List.pairwise_cons.1 hp with ⟨hx, hxs⟩
    by_cases hpx : p x = true
    · rw [List.find?_cons_of_pos _ hpx] at h
      cases h
      intro k hk _
      rcases List.mem_cons.1 hk with rfl | hk
      · exact Nat.le_refl _
      · exact hx k hk
    · rw [List.find?_cons_of_neg _ hpx] at h
      intro k hk hpk
      rcases List.mem_cons.1 hk with rfl | hk
      · exact absurd hpk hpx
      · exact ih hxs h k hk hpk

/-- The key found by the descending-length scan is a dictionary key, a prefix
of the text at the cursor, and of maximal length among all such keys. -/
theorem cedictFind_spec {lex : Dict} {s : Str} {w : Str}
    (h : cedictFind lex s = some w) :
    w ∈ lex.map Prod.fst ∧ w <+: s ∧
      ∀ k ∈ lex.map Prod.fst, k <+: s → k.length ≤ w.length := by
  have h' : (cedictWords lex).find? (fun w => w.isPrefixOf s) = some w := h
  have hmem : w ∈ cedictWords lex := List.mem_of_find?_eq_some h'
  have hpw : w.isPrefixOf s = true := by
    have := List.find?_some h'
    simpa using this
  refine ⟨mem_sortLenDesc.1 hmem, List.isPrefixOf_iff_prefix.1 hpw, ?_⟩
  intro k hk hkp
  exact find?_pairwise_max (pairwise_sortLenDesc _) h' k (mem_sortLenDesc.2 hk)
    (List.isPrefixOf_iff_prefix.2 hkp)

/-- When the text is exactly a dictionary key, the descending-length scan
finds exactly that key. -/
theorem cedictFind_self {lex : Dict} {word : Str}
    (hmem : word ∈ lex.map Prod.fst) :
    cedictFind lex word = some word := by
  have hsome : (cedictFind lex word).isSome := by
    unfold cedictFind
    refine List.find?_isSome.2 ⟨word, mem_sortLenDesc.2 hmem, ?_⟩
    exact List.isPrefixOf_iff_prefix.2 (List.prefix_refl word)
  rcases Option.isSome_iff_exists.1 hsome with ⟨w, hw⟩
  rcases cedictFind_spec hw with ⟨_, hwpre, hmax⟩
  have hle : word.length ≤ w.length := hmax word hmem (List.prefix_refl word)
  have : w = word := hwpre.eq_of_length (Nat.le_antisymm hwpre.length_le hle)
  rw [hw, this]

/-! ### Helper lemmas about `GetSegmentsInCsv` and one loop iteration -/

theorem findSplit_flatten {csv : CsvDict} {word : Str} :
    ∀ {ks : List Nat} {l : List Str}, findSplit csv word ks = some l → l.flatten = word := by
  intro ks
  induction ks with
  | nil => intro l h; simp [findSplit] at h
  | cons k ks ih =>
    intro l h
    unfold findSplit at h
    by_cases hc : ((assocLookup csv (word.take k)).isSome
        && (assocLookup csv (word.drop k)).isSome) = true
    · rw [if_pos hc] at h
      cases h
      simp
    · rw [if_neg hc] at h
      exact ih h

theorem getSegments_flatten {csv : CsvDict} {word : Str} {l : List Str}
    (h : GetSegmentsInCsv csv word = some l) : l.flatten = word := by
  unfold GetSegmentsInCsv at h
  by_cases hd : (assocLookup csv word).isSome
  · rw [if_pos hd] at h
    cases h
    simp
  · rw [if_neg hd] at h
    exact findSplit_flatten h

/-- Each loop iteration either emits segments whose texts concatenate to
exactly the consumed characters, or emits nothing and skips one character
that is whitespace or matched by neither dictionary. -/
theorem stepSeg_concat (lex : Dict) (csv : CsvDict) (c : Char) (rest : Str) :
    segConcat (stepSeg lex csv (c :: rest)).segs
        = (c :: rest).take (stepSeg lex csv (c :: rest)).consumed ∨
      ((stepSeg lex csv (c :: rest)).segs = [] ∧ (stepSeg lex csv (c :: rest)).consumed = 1 ∧
        (isJsWhitespace c = true ∨
          (cedictFind lex (c :: rest) = none ∧ csvFind csv (c :: rest) = none))) := by
  by_cases h1 : c = '\n'
  · subst h1
    left
    simp [stepSeg, segConcat]
  · by_cases h2 : isLatin c = true
    · left
      simp [stepSeg, h1, h2, segConcat]
    · by_cases h3 : isJsWhitespace c = true
      · right
        simp [stepSeg, h1, h2, h3]
      · rcases hced : cedictFind lex (c :: rest) with _ | word
        · rcases hcsv : csvFind csv (c :: rest) with _ | word
          · right
            simp [stepSeg, h1, h2, h3, hced, hcsv]
          · left
            have h' : (csv.map Prod.fst).find? (fun w => w.isPrefixOf (c :: rest)) = some word :=
              hcsv
            have hpre : word <+: (c :: rest) :=
              List.isPrefixOf_iff_prefix.1 (by simpa using List.find?_some h')
            have htake : word = (c :: rest).take word.length := List.prefix_iff_eq_take.1 hpre
            simp only [stepSeg, if_neg h1, if_neg h2, if_neg h3, hced, hcsv, segConcat]
            simpa using htake
        · left
          have hpre : word <+: (c :: rest) := (cedictFind_spec hced).2.1
          have htake : word = (c :: rest).take word.length := List.prefix_iff_eq_take.1 hpre
          rcases hget : GetSegmentsInCsv csv word with _ | vsegs
          · simp only [stepSeg, if_neg h1, if_neg h2, if_neg h3, hced, hget, segConcat]
            simpa using htake
          · have hfl : vsegs.flatten = word := getSegments_flatten hget
            have hmap : List.map (ProcessedSegment.text ∘ fun t =>
                (⟨t, SegType.found, (assocLookup csv t).map SegData.csvArr⟩ :
                  ProcessedSegment)) vsegs = vsegs := by
              show List.map (fun t => t) vsegs = vsegs
              simp
            simp only [stepSeg, if_neg h1, if_neg h2, if_neg h3, hced, hget, segConcat,
              List.map_map, hmap, hfl]
            exact htake

/-- Each loop iteration adds to the unknown set exactly the texts of the
`not-found` segments it emits. -/
theorem stepSeg_ukAdds (lex : Dict) (csv : CsvDict) (c : Char) (rest : Str) :
    (stepSeg lex csv (c :: rest)).ukAdds
      = ((stepSeg lex csv (c :: rest)).segs.filter
          (fun sg => sg.type.isNF)).map ProcessedSegment.text := by
  by_cases h1 : c = '\n'
  · subst h1
    simp [stepSeg, SegType.isNF]
  · by_cases h2 : isLatin c = true
    · simp [stepSeg, h1, h2, SegType.isNF]
    · by_cases h3 : isJsWhitespace c = true
      · simp [stepSeg, h1, h2, h3]
      · rcases hced : cedictFind lex (c :: rest) with _ | word
        · rcases hcsv : csvFind csv (c :: rest) with _ | word
          · simp [stepSeg, h1, h2, h3, hced, hcsv]
          · simp [stepSeg, h1, h2, h3, hced, hcsv, SegType.isNF]
        · rcases hget : GetSegmentsInCsv csv word with _ | vsegs
          · simp [stepSeg, h1, h2, h3, hced, hget, SegType.isNF]
          · simp [stepSeg, h1, h2, h3, hced, hget, List.filter_map, SegType.isNF,
              Function.comp]

/-- Under non-empty dictionary keys every loop iteration advances the cursor. -/
theorem stepSeg_advance (lex : Dict) (csv : CsvDict)
    (hlex : ∀ w ∈ lex.map Prod.fst, w ≠ [])
    (hcsv : ∀ w ∈ csv.map Prod.fst, w ≠ []) (c : Char) (rest : Str) :
    1 ≤ (stepSeg lex csv (c :: rest)).consumed := by
  by_cases h1 : c = '\n'
  · subst h1
    simp [stepSeg]
  · by_cases h2 : isLatin c = true
    · simp [stepSeg, h1, h2]
    · by_cases h3 : isJsWhitespace c = true
      · simp [stepSeg, h1, h2, h3]
      · rcases hced : cedictFind lex (c :: rest) with _ | word
        · rcases hcsv' : csvFind csv (c :: rest) with _ | word
          · simp [stepSeg, h1, h2, h3, hced, hcsv']
          · have h' : (csv.map Prod.fst).find? (fun w => w.isPrefixOf (c :: rest)) = some word :=
              hcsv'
            have hmem : word ∈ csv.map Prod.fst := List.mem_of_find?_eq_some h'
            have hne : word ≠ [] := hcsv word hmem
            have : 1 ≤ word.length := List.length_pos.2 hne
            simp [stepSeg, h1, h2, h3, hced, hcsv']
            exact this
        · have hmem : word ∈ lex.map Prod.fst := (cedictFind_spec hced).1
          have hne : word ≠ [] := hlex word hmem
          have hlen : 1 ≤ word.length := List.length_pos.2 hne
          rcases hget : GetSegmentsInCsv csv word with _ | vsegs
          · simp [stepSeg, h1, h2, h3, hced, hget]
            exact hlen
          · simp [stepSeg, h1, h2, h3, hced, hget]
            exact hlen

/-! ### Helper lemmas about the main loop -/

theorem segConcat_append (a b : List ProcessedSegment) :
    segConcat (a ++ b) = segConcat a ++ segConcat b := by
  simp [segConcat]

theorem processLoopFuel_concat {lex : Dict} {csv : CsvDict} :
    ∀ {fuel : Nat} {s : Str} {uk : List Str} {segs : List ProcessedSegment} {uk' : List Str},
      processLoopFuel lex csv fuel s uk = some (segs, uk') → (segConcat segs).Sublist s := by
  intro fuel
  induction fuel with
  | zero =>
    intro s uk segs uk' h
    cases s with
    | nil =>
      simp only [processLoopFuel, Option.some.injEq, Prod.mk.injEq] at h
      rcases h with ⟨h1, _⟩
      subst h1
      simp [segConcat]
    | cons c rest => simp [processLoopFuel] at h
  | succ f ih =>
    intro s uk segs uk' h
    cases s with
    | nil =>
      simp only [processLoopFuel, Option.some.injEq, Prod.mk.injEq] at h
      rcases h with ⟨h1, _⟩
      subst h1
      simp [segConcat]
    | cons c rest =>
      rw [processLoopFuel] at h
      by_cases hn : (stepSeg lex csv (c :: rest)).consumed = 0
      · rw [if_pos hn] at h
        cases h
      · rw [if_neg hn] at h
        rcases hrec : processLoopFuel lex csv f
            ((c :: rest).drop (stepSeg lex csv (c :: rest)).consumed)
            (foldAdd uk (stepSeg lex csv (c :: rest)).ukAdds) with _ | pr
        · rw [hrec] at h
          cases h
        · rcases pr with ⟨restSegs, uk2⟩
          rw [hrec] at h
          simp only [Option.some.injEq, Prod.mk.injEq] at h
          rcases h with ⟨h1, _⟩
          subst h1
          have hrest : (segConcat restSegs).Sublist
              ((c :: rest).drop (stepSeg lex csv (c :: rest)).consumed) := ih hrec
          rcases stepSeg_concat lex csv c rest with heq | ⟨hnil, hone, _⟩
          · rw [segConcat_append, heq]
            have h2 : List.Sublist
                ((c :: rest).take (stepSeg lex csv (c :: rest)).consumed ++ segConcat restSegs)
                ((c :: rest).take (stepSeg lex csv (c :: rest)).consumed ++
                  (c :: rest).drop (stepSeg lex csv (c :: rest)).consumed) :=
              List.Sublist.append (List.Sublist.refl _) hrest
            rw [List.take_append_drop] at h2
            exact h2
          · rw [segConcat_append, hnil]
            simp only [segConcat, List.map_nil, List.flatten_nil, List.nil_append]
            exact hrest.trans (List.drop_sublist _ _)

theorem processLoopFuel_uk {lex : Dict} {csv : CsvDict} :
    ∀ {fuel : Nat} {s : Str} {uk : List Str} {segs : List ProcessedSegment} {uk' : List Str},
      processLoopFuel lex csv fuel s uk = some (segs, uk') →
        uk' = foldAdd uk ((segs.filter (fun sg => sg.type.isNF)).map ProcessedSegment.text) := by
  intro fuel
  induction fuel with
  | zero =>
    intro s uk segs uk' h
    cases s with
    | nil =>
      simp only [processLoopFuel, Option.some.injEq, Prod.mk.injEq] at h
      rcases h with ⟨h1, h2⟩
      subst h1
      subst h2
      simp [foldAdd]
    | cons c rest => simp [processLoopFuel] at h
  | succ f ih =>
    intro s uk segs uk' h
    cases s with
    | nil =>
      simp only [processLoopFuel, Option.some.injEq, Prod.mk.injEq] at h
      rcases h with ⟨h1, h2⟩
      subst h1
      subst h2
      simp [foldAdd]
    | cons c rest =>
      rw [processLoopFuel] at h
      by_cases hn : (stepSeg lex csv (c :: rest)).consumed = 0
      · rw [if_pos hn] at h
        cases h
      · rw [if_neg hn] at h
        rcases hrec : processLoopFuel lex csv f
            ((c :: rest).drop (stepSeg lex csv (c :: rest)).consumed)
            (foldAdd uk (stepSeg lex csv (c :: rest)).ukAdds) with _ | pr
        · rw [hrec] at h
          cases h
        · rcases pr with ⟨restSegs, uk2⟩
          rw [hrec] at h
          simp only [Option.some.injEq, Prod.mk.injEq] at h
          rcases h with ⟨h1, h2⟩
          subst h1
          subst h2
          have hstep := stepSeg_ukAdds lex csv c rest
          have := ih hrec
          rw [this, hstep]
          simp only [foldAdd, List.filter_append, List.map_append, List.foldl_append]

theorem processLoopFuel_isSome {lex : Dict} {csv : CsvDict}
    (hlex : ∀ w ∈ lex.map Prod.fst, w ≠ [])
    (hcsv : ∀ w ∈ csv.map Prod.fst, w ≠ []) :
    ∀ {fuel : Nat} {s : Str} {uk : List Str}, s.length ≤ fuel →
      (processLoopFuel lex csv fuel s uk).isSome := by
  intro fuel
  induction fuel with
  | zero =>
    intro s uk hlen
    cases s with
    | nil => simp [processLoopFuel]
    | cons c rest => simp at hlen
  | succ f ih =>
    intro s uk hlen
    cases s with
    | nil => simp [processLoopFuel]
    | cons c rest =>
      rw [processLoopFuel]
      have hadv : 1 ≤ (stepSeg lex csv (c :: rest)).consumed :=
        stepSeg_advance lex csv hlex hcsv c rest
      have hn : ¬(stepSeg lex csv (c :: rest)).consumed = 0 := by omega
      rw [if_neg hn]
      have hdlen : ((c :: rest).drop (stepSeg lex csv (c :: rest)).consumed).length ≤ f := by
        rw [List.length_drop]
        simp only [List.length_cons] at hlen ⊢
        omega
      have hsome := @ih _ (foldAdd uk (stepSeg lex csv (c :: rest)).ukAdds) hdlen
      rcases Option.isSome_iff_exists.1 hsome with ⟨pr, hpr⟩
      rcases pr with ⟨restSegs, uk2⟩
      rw [hpr]
      rfl

/-! ### Helper lemmas about the unknown-word set and report -/

theorem setAdd_nodup {l : List Str} {w : Str} (h : l.Nodup) : (setAdd l w).Nodup := by
  unfold setAdd
  by_cases hw : w ∈ l
  · rw [if_pos hw]
    exact h
  · rw [if_neg hw]
    simp [List.nodup_append, h, hw]

theorem foldAdd_nodup : ∀ {ws l : List Str}, l.Nodup → (foldAdd l ws).Nodup := by
  intro ws
  induction ws with
  | nil => intro l h; simpa [foldAdd] using h
  | cons w ws ih =>
    intro l h
    have : foldAdd l (w :: ws) = foldAdd (setAdd l w) ws := rfl
    rw [this]
    exact ih (setAdd_nodup h)

theorem dedupFirst_nodup (ws : List Str) : (dedupFirst ws).Nodup :=
  foldAdd_nodup List.nodup_nil

theorem mkUnknownWords_map_word (lex : Dict) :
    ∀ (i : Nat) (ws : List Str), (mkUnknownWords lex i ws).map UnknownWord.word = ws := by
  intro i ws
  induction ws generalizing i with
  | nil => simp [mkUnknownWords]
  | cons w ws ih => simp [mkUnknownWords, ih]

theorem mkUnknownWords_map_index (lex : Dict) :
    ∀ (i : Nat) (ws : List Str),
      (mkUnknownWords lex i ws).map UnknownWord.index = List.range' (i + 1) ws.length := by
  intro i ws
  induction ws generalizing i with
  | nil => simp [mkUnknownWords]
  | cons w ws ih => simp [mkUnknownWords, ih, List.range'_succ]

theorem mkUnknownWords_fields (lex : Dict) :
    ∀ {i : Nat} {ws : List Str} {r : UnknownWord}, r ∈ mkUnknownWords lex i ws →
      r.pinyin = ukPinyin lex r.word ∧ r.meaning = ukMeaning lex r.word := by
  intro i ws
  induction ws generalizing i with
  | nil => intro r h; simp [mkUnknownWords] at h
  | cons w ws ih =>
    intro r h
    rcases List.mem_cons.1 h with rfl | h
    · exact ⟨rfl, rfl⟩
    · exact ih h

/-! ### Helper lemmas about the split-point scan -/

theorem findSplit_or (csv : CsvDict) (word : Str) :
    ∀ a b : List Nat, findSplit csv word (a ++ b)
      = (findSplit csv word a).or (findSplit csv word b) := by
  intro a
  induction a with
  | nil => intro b; simp [findSplit]
  | cons k ks ih =>
    intro b
    by_cases hc : ((assocLookup csv (word.take k)).isSome
        && (assocLookup csv (word.drop k)).isSome) = true
    · simp [findSplit, hc]
    · simp [findSplit, hc, ih]

theorem findSplit_none_of_all (csv : CsvDict) (word : Str) :
    ∀ {ks : List Nat}, (∀ k ∈ ks, ¬((assocLookup csv (word.take k)).isSome = true ∧
        (assocLookup csv (word.drop k)).isSome = true)) →
      findSplit csv word ks = none := by
  intro ks
  induction ks with
  | nil => intro _; simp [findSplit]
  | cons k ks ih =>
    intro h
    have hk := h k (List.mem_cons_self k ks)
    have hc : ¬((assocLookup csv (word.take k)).isSome
        && (assocLookup csv (word.drop k)).isSome) = true := by
      simpa [Bool.and_eq_true] using hk
    simp only [findSplit, if_neg hc]
    exact ih (fun j hj => h j (List.mem_cons_of_mem k hj))

/-- The decomposition scan of `GetSegmentsInCsv` returns the split at the
least valid split point. -/
theorem getSegments_first_split {csv : CsvDict} {word : Str} {k : Nat}
    (hdir : assocLookup csv word = none)
    (hk1 : 1 ≤ k) (hkL : k < word.length)
    (hl : (assocLookup csv (word.take k)).isSome = true)
    (hr : (assocLookup csv (word.drop k)).isSome = true)
    (hmin : ∀ j, 1 ≤ j → j < k → ¬((assocLookup csv (word.take j)).isSome = true ∧
        (assocLookup csv (word.drop j)).isSome = true)) :
    GetSegmentsInCsv csv word = some [word.take k, word.drop k] := by
  unfold GetSegmentsInCsv
  rw [if_neg (by simp [hdir])]
  have hrange : List.range' 1 (word.length - 1)
      = List.range' 1 (k - 1) ++ List.range' k (word.length - k) := by
    have h := List.range'_append_1 1 (k - 1) (word.length - k)
    have e1 : 1 + (k - 1) = k := by omega
    have e2 : word.length - k + (k - 1) = word.length - 1 := by omega
    rw [e1, e2] at h
    exact h.symm
  rw [hrange, findSplit_or]
  have hnone : findSplit csv word (List.range' 1 (k - 1)) = none := by
    refine findSplit_none_of_all csv word ?_
    intro j hj
    have hj' := List.mem_range'_1.1 hj
    exact hmin j hj'.1 (by omega)
  rw [hnone]
  have hlen : word.length - k = (word.length - k - 1) + 1 := by omega
  rw [hlen, List.range'_succ]
  simp only [findSplit, Bool.and_eq_true, hl, hr, and_self, if_true]
  rfl

/-! ### Helper lemmas assembling a full run on a single word -/

theorem stepSeg_cedict_direct {lex : Dict} {csv : CsvDict} {c : Char} {rest word : Str}
    (h1 : ¬c = '\n') (h2 : ¬isLatin c = true) (h3 : ¬isJsWhitespace c = true)
    (hced : cedictFind lex (c :: rest) = some word)
    (hdir : (assocLookup csv word).isSome = true) :
    stepSeg lex csv (c :: rest)
      = ⟨[⟨word, SegType.found, (assocLookup csv word).map SegData.csvArr⟩],
         word.length, []⟩ := by
  have hget : GetSegmentsInCsv csv word = some [word] := by
    unfold GetSegmentsInCsv
    rw [if_pos hdir]
  simp [stepSeg, h1, h2, h3, hced, hget]

theorem processLoopFuel_step_all {lex : Dict} {csv : CsvDict} {c : Char} {rest : Str}
    {segs' : List ProcessedSegment} {adds : List Str}
    (hstep : stepSeg lex csv (c :: rest) = ⟨segs', (c :: rest).length, adds⟩) :
    processLoopFuel lex csv (c :: rest).length (c :: rest) []
      = some (segs', foldAdd [] adds) := by
  have hlen : (c :: rest).length = rest.length + 1 := rfl
  rw [hlen]
  rw [processLoopFuel, hstep]
  simp only [List.length_cons]
  have hne : ¬rest.length + 1 = 0 := by omega
  rw [if_neg hne]
  have hdrop : (c :: rest).drop (rest.length + 1) = [] := by
    rw [List.drop_of_length_le]
    simp
  rw [hdrop]
  simp [processLoopFuel]

/-! ### Concrete sample entries used in witnesses and counterexamples -/

def dSample : DictEntry := ⟨['n', 'i', '3'], ['y', 'o', 'u']⟩

def dSample2 : DictEntry := ⟨['n', 'i', '3', 'h', 'a', 'o', '3'], ['h', 'e', 'l', 'l', 'o']⟩

def cSample : CsvEntry := ⟨['1'], ['n', 'i', '3'], ['p', 'r', 'o', 'n'], ['y', 'o', 'u']⟩

def cSample2 : CsvEntry := ⟨['2'], ['m', 'a'], ['p', 'a', 'r', 't'], ['q', 'u']⟩

/-- Bool test for the `found` kind. -/
def SegType.isFound : SegType → Bool
  | SegType.found => true
  | _ => false

/-! ### Claim C1 -/

/-- C1 counterexample: with a non-empty lexicon, segmenting a single space
produces no segments at all, so concatenating the segment texts gives the
empty string, which does not reproduce the input text. -/
theorem claim_C1_counterexample :
    processScript [(['你'], [dSample])] [] [' '] ⟨[], []⟩ = some ⟨[], []⟩ ∧
      segConcat [] ≠ [' '] := by
  constructor
  · decide
  · decide

/-- C1 (amended): concatenating the segment texts, in order, yields the
input text with zero or more characters deleted (a sublist: no duplication,
no reordering, no invented characters), and every loop iteration either
emits segments whose texts concatenate to exactly the characters it
consumes, or emits nothing and skips exactly one character that is
whitespace or matched by neither dictionary. -/
theorem claim_C1_concat_amended :
    (∀ (lex : Dict) (csv : CsvDict) (fuel : Nat) (s : Str) (uk : List Str)
        (segs : List ProcessedSegment) (uk' : List Str),
        processLoopFuel lex csv fuel s uk = some (segs, uk') →
          (segConcat segs).Sublist s) ∧
    (∀ (lex : Dict) (csv : CsvDict) (c : Char) (rest : Str),
        segConcat (stepSeg lex csv (c :: rest)).segs
            = (c :: rest).take (stepSeg lex csv (c :: rest)).consumed ∨
          ((stepSeg lex csv (c :: rest)).segs = [] ∧
            (stepSeg lex csv (c :: rest)).consumed = 1 ∧
            (isJsWhitespace c = true ∨
              (cedictFind lex (c :: rest) = none ∧ csvFind csv (c :: rest) = none)))) :=
  ⟨fun _ _ _ _ _ _ _ h => processLoopFuel_concat h, stepSeg_concat⟩

/-- Witness for the amended C1 theorem at a concrete run. -/
theorem claim_C1_witness :
    processLoopFuel [(['你'], [dSample])] [] 1 [' '] [] = some ([], []) ∧
      (segConcat []).Sublist [' '] :=
  ⟨by decide,
   claim_C1_concat_amended.1 [(['你'], [dSample])] [] 1 [' '] [] [] [] (by decide)⟩

/-! ### Claim C2 -/

/-- C2: at each position where a lexicon match is attempted, the word found
by the scan is a lexicon key that is a prefix of the text there and has
maximal length among all such keys; concretely, with lexicon keys 你 and
你好 and an empty curriculum, segmenting 你好 yields exactly one Unmatched
segment 你好. -/
theorem claim_C2_longest_match :
    (∀ (lex : Dict) (s w : Str), cedictFind lex s = some w →
        w ∈ lex.map Prod.fst ∧ w <+: s ∧
          ∀ k ∈ lex.map Prod.fst, k <+: s → k.length ≤ w.length) ∧
    processScript [(['你'], [dSample]), (['你', '好'], [dSample2])] [] ['你', '好'] ⟨[], []⟩
      = some ⟨[⟨['你', '好'], SegType.notFound, some (SegData.dictArr [dSample2])⟩],
              [⟨1, ['你', '好'], dSample2.pinyin, dSample2.meaning⟩]⟩ :=
  ⟨fun _ _ _ h => cedictFind_spec h, by decide⟩

/-- Witness for C2 at a concrete lexicon and text. -/
theorem claim_C2_witness :
    cedictFind [(['你'], [dSample]), (['你', '好'], [dSample2])] ['你', '好']
        = some ['你', '好'] ∧
      (['你'] : Str).length ≤ (['你', '好'] : Str).length := by
  constructor
  · decide
  · exact ((claim_C2_longest_match.1 [(['你'], [dSample]), (['你', '好'], [dSample2])]
      ['你', '好'] ['你', '好'] (by decide)).2.2 ['你'] (by decide) (by decide))

/-! ### Claim C3 -/

/-- C3: when the lexicon-matched word is not itself a curriculum key and
`k` is the least split point whose two halves are both curriculum keys,
the iteration emits exactly the two Matched segments for the halves, with
their respective curriculum annotation lists, and consumes the whole word;
concretely, with lexicon 你好吗 and curriculum 你好 and 吗, segmenting
你好吗 yields Matched 你好 then Matched 吗. -/
theorem claim_C3_binary_split :
    (∀ (lex : Dict) (csv : CsvDict) (c : Char) (rest word : Str) (k : Nat),
        ¬c = '\n' → ¬isLatin c = true → ¬isJsWhitespace c = true →
        cedictFind lex (c :: rest) = some word →
        assocLookup csv word = none →
        1 ≤ k → k < word.length →
        (assocLookup csv (word.take k)).isSome = true →
        (assocLookup csv (word.drop k)).isSome = true →
        (∀ j, 1 ≤ j → j < k → ¬((assocLookup csv (word.take j)).isSome = true ∧
            (assocLookup csv (word.drop j)).isSome = true)) →
        stepSeg lex csv (c :: rest)
          = ⟨[⟨word.take k, SegType.found,
                (assocLookup csv (word.take k)).map SegData.csvArr⟩,
              ⟨word.drop k, SegType.found,
                (assocLookup csv (word.drop k)).map SegData.csvArr⟩],
             word.length, []⟩) ∧
    processScript [(['你', '好', '吗'], [dSample])]
        [(['你', '好'], [cSample]), (['吗'], [cSample2])] ['你', '好', '吗'] ⟨[], []⟩
      = some ⟨[⟨['你', '好'], SegType.found, some (SegData.csvArr [cSample])⟩,
               ⟨['吗'], SegType.found, some (SegData.csvArr [cSample2])⟩], []⟩ := by
  constructor
  · intro lex csv c rest word k h1 h2 h3 hced hdir hk1 hkL hl hr hmin
    have hget := getSegments_first_split hdir hk1 hkL hl hr hmin
    simp [stepSeg, h1, h2, h3, hced, hget]
  · decide

/-- Witness for C3: the general split theorem applied at the concrete
你好吗 example. -/
theorem claim_C3_witness :
    stepSeg [(['你', '好', '吗'], [dSample])]
        [(['你', '好'], [cSample]), (['吗'], [cSample2])] ['你', '好', '吗']
      = ⟨[⟨['你', '好'], SegType.found, some (SegData.csvArr [cSample])⟩,
          ⟨['吗'], SegType.found, some (SegData.csvArr [cSample2])⟩], 3, []⟩ := by
  have h := claim_C3_binary_split.1 [(['你', '好', '吗'], [dSample])]
    [(['你', '好'], [cSample]), (['吗'], [cSample2])] '你' ['好', '吗'] ['你', '好', '吗'] 2
    (by decide) (by decide) (by decide) (by decide) (by decide) (by decide) (by decide)
    (by decide) (by decide)
    (by
      intro j hj1 hj2
      have hj : j = 1 := by omega
      subst hj
      decide)
  exact h

/-! ### Claim C4 -/

/-- C4 counterexample: the word a, present as a key of both dictionaries,
is intercepted by the Latin-letter branch, so segmenting the text a yields
a Matched segment whose data is the pass-through object, not the
curriculum entries. -/
theorem claim_C4_counterexample :
    processScript [(['a'], [dSample])] [(['a'], [cSample])] ['a'] ⟨[], []⟩
        = some ⟨[⟨['a'], SegType.found, some (SegData.latinObj ['a'])⟩], []⟩ ∧
      some (SegData.latinObj ['a']) ≠ some (SegData.csvArr [cSample]) := by
  constructor
  · decide
  · decide

/-- C4 (amended): for any non-empty word whose first character is not a
newline, not an ASCII Latin letter and not whitespace, present as a key of
both the lexicon and the curriculum, segmenting text equal to that word
alone yields exactly one Matched segment carrying the curriculum entries
for the word, and an empty unknown-word report. -/
theorem claim_C4_curriculum_precedence :
    ∀ (lex : Dict) (csv : CsvDict) (c : Char) (rest : Str) (st : AppState),
      ¬c = '\n' → ¬isLatin c = true → ¬isJsWhitespace c = true →
      (c :: rest) ∈ lex.map Prod.fst →
      (assocLookup csv (c :: rest)).isSome = true →
      processScript lex csv (c :: rest) st
        = some ⟨[⟨c :: rest, SegType.found,
                  (assocLookup csv (c :: rest)).map SegData.csvArr⟩], []⟩ := by
  intro lex csv c rest st h1 h2 h3 hmem hdir
  have hlexne : ¬lex = [] := by
    intro h
    subst h
    simp at hmem
  have hced : cedictFind lex (c :: rest) = some (c :: rest) := cedictFind_self hmem
  have hstep := stepSeg_cedict_direct h1 h2 h3 hced hdir
  have hloop := processLoopFuel_step_all hstep
  unfold processScript
  rw [if_neg hlexne, hloop]
  simp [mkUnknownWords, foldAdd]

/-- Witness for the amended C4 theorem at the one-character word 你. -/
theorem claim_C4_witness :
    processScript [(['你'], [dSample])] [(['你'], [cSample])] ['你'] ⟨[], []⟩
      = some ⟨[⟨['你'], SegType.found, some (SegData.csvArr [cSample])⟩], []⟩ := by
  have h := claim_C4_curriculum_precedence [(['你'], [dSample])] [(['你'], [cSample])]
    '你' [] ⟨[], []⟩ (by decide) (by decide) (by decide) (by decide) (by decide)
  exact h

/-! ### Claim C5 -/

/-- C5 counterexample: with an empty lexicon the call does not leave the
output state unchanged: it appends an error segment to `processedOutput`. -/
theorem claim_C5_counterexample :
    processScript [] [(['a'], [cSample])] ['你'] ⟨[], []⟩
        = some ⟨[errorSegment], []⟩ ∧
      ([errorSegment] : List ProcessedSegment) ≠ [] := by
  constructor
  · decide
  · decide

/-- C5 (amended): for every call with an empty lexicon, regardless of the
curriculum, the text and the previous state, the call returns before
segmenting anything and signals the condition by appending a single error
segment to the existing `processedOutput`, leaving `unknownWords`
unchanged. -/
theorem claim_C5_empty_dictionary :
    ∀ (csv : CsvDict) (text : Str) (st : AppState),
      processScript [] csv text st
        = some { st with processedOutput := st.processedOutput ++ [errorSegment] } := by
  intro csv text st
  unfold processScript
  rw [if_pos rfl]

/-! ### Claim C6 -/

/-- C6: in every successful run, the unknown-word report lists exactly the
texts of the Unmatched (`not-found`) segments of the output, deduplicated
keeping the first occurrence, with no duplicate words, ranks forming the
contiguous sequence 1..N in that order, and each record's pinyin and
meaning taken from index 0 of the word's lexicon entry list, defaulting to
the empty string. -/
theorem claim_C6_collect_unknown :
    ∀ (lex : Dict) (csv : CsvDict) (text : Str) (st st' : AppState),
      ¬lex = [] → processScript lex csv text st = some st' →
      st'.unknownWords.map UnknownWord.word
          = dedupFirst ((st'.processedOutput.filter (fun sg => sg.type.isNF)).map
              ProcessedSegment.text) ∧
      (st'.unknownWords.map UnknownWord.word).Nodup ∧
      st'.unknownWords.map UnknownWord.index = List.range' 1 st'.unknownWords.length ∧
      ∀ r ∈ st'.unknownWords,
        r.pinyin = ukPinyin lex r.word ∧ r.meaning = ukMeaning lex r.word := by
  intro lex csv text st st' hlex h
  unfold processScript at h
  rw [if_neg hlex] at h
  rcases hrun : processLoopFuel lex csv text.length text [] with _ | pr
  · rw [hrun] at h
    cases h
  · rcases pr with ⟨segs, uk⟩
    rw [hrun] at h
    simp only [Option.some.injEq] at h
    subst h
    have huk : uk = dedupFirst ((segs.filter (fun sg => sg.type.isNF)).map
        ProcessedSegment.text) := processLoopFuel_uk hrun
    refine ⟨?_, ?_, ?_, ?_⟩
    · rw [mkUnknownWords_map_word]
      exact huk
    · rw [mkUnknownWords_map_word]
      rw [huk]
      exact dedupFirst_nodup _
    · have hlen : (mkUnknownWords lex 0 uk).length = uk.length := by
        have := congrArg List.length (mkUnknownWords_map_word lex 0 uk)
        simpa using this
      rw [mkUnknownWords_map_index]
      show List.range' (0 + 1) uk.length = List.range' 1 (mkUnknownWords lex 0 uk).length
      rw [hlen]
    · intro r hr
      exact mkUnknownWords_fields lex hr

/-- Witness for C6 at a concrete run with a repeated unmatched word. -/
theorem claim_C6_witness :
    (⟨[⟨['你'], SegType.notFound, some (SegData.dictArr [dSample])⟩,
       ⟨['你'], SegType.notFound, some (SegData.dictArr [dSample])⟩],
      [⟨1, ['你'], dSample.pinyin, dSample.meaning⟩]⟩ : AppState).unknownWords.map
        UnknownWord.index
      = List.range' 1 (⟨[⟨['你'], SegType.notFound, some (SegData.dictArr [dSample])⟩,
          ⟨['你'], SegType.notFound, some (SegData.dictArr [dSample])⟩],
         [⟨1, ['你'], dSample.pinyin, dSample.meaning⟩]⟩ : AppState).unknownWords.length :=
  (claim_C6_collect_unknown [(['你'], [dSample])] [] ['你', '你'] ⟨[], []⟩
    ⟨[⟨['你'], SegType.notFound, some (SegData.dictArr [dSample])⟩,
      ⟨['你'], SegType.notFound, some (SegData.dictArr [dSample])⟩],
     [⟨1, ['你'], dSample.pinyin, dSample.meaning⟩]⟩
    (by decide) (by decide)).2.2.1

/-! ### Claim C7 -/

/-- C7 counterexample: the text ni hao contains five Latin letters, so the
output has five Matched segments (and no Unmatched ones), not six as the
claim states. -/
theorem claim_C7_counterexample :
    (processScript [(['你'], [dSample])] [] ['n', 'i', ' ', 'h', 'a', 'o'] ⟨[], []⟩).map
        (fun st => (st.processedOutput.filter (fun sg => sg.type.isFound)).length)
      = some 5 ∧
    ¬(processScript [(['你'], [dSample])] [] ['n', 'i', ' ', 'h', 'a', 'o'] ⟨[], []⟩).map
        (fun st => (st.processedOutput.filter (fun sg => sg.type.isFound)).length)
      = some 6 := by
  constructor
  · decide
  · decide

/-- C7 (amended): every ASCII Latin letter at the cursor yields a
one-character Matched segment whose sole annotation object's pinyin is the
character itself, advancing by 1; segmenting ni hao yields the five
Latin-letter Matched segments n i h a o, no Unmatched segments, the
whitespace skipped. -/
theorem claim_C7_latin :
    (∀ (lex : Dict) (csv : CsvDict) (c : Char) (rest : Str), isLatin c = true →
        stepSeg lex csv (c :: rest)
          = ⟨[⟨[c], SegType.found, some (SegData.latinObj [c])⟩], 1, []⟩) ∧
    processScript [(['你'], [dSample])] [] ['n', 'i', ' ', 'h', 'a', 'o'] ⟨[], []⟩
      = some ⟨[⟨['n'], SegType.found, some (SegData.latinObj ['n'])⟩,
               ⟨['i'], SegType.found, some (SegData.latinObj ['i'])⟩,
               ⟨['h'], SegType.found, some (SegData.latinObj ['h'])⟩,
               ⟨['a'], SegType.found, some (SegData.latinObj ['a'])⟩,
               ⟨['o'], SegType.found, some (SegData.latinObj ['o'])⟩], []⟩ := by
  constructor
  · intro lex csv c rest hc
    have h1 : ¬c = '\n' := by
      intro h
      subst h
      exact absurd hc (by decide)
    simp [stepSeg, h1, hc]
  · decide

/-- Witness for the amended C7 theorem at the letter n. -/
theorem claim_C7_witness :
    stepSeg [] [] ['n'] = ⟨[⟨['n'], SegType.found, some (SegData.latinObj ['n'])⟩], 1, []⟩ :=
  claim_C7_latin.1 [] [] 'n' [] (by decide)

/-! ### Claim C8 -/

/-- C8: evaluation at the failing input.  For the Latin letter a the code
attaches a bare pass-through object, not a non-empty array of annotation
records as both the claim and the source's own type declaration for the
`data` field require. -/
theorem claim_C8_matched_data :
    processScript [(['你'], [dSample])] [] ['a'] ⟨[], []⟩
        = some ⟨[⟨['a'], SegType.found, some (SegData.latinObj ['a'])⟩], []⟩ ∧
      (∀ l : List CsvEntry, SegData.latinObj ['a'] ≠ SegData.csvArr l) ∧
      (∀ l : List DictEntry, SegData.latinObj ['a'] ≠ SegData.dictArr l) := by
  refine ⟨by decide, ?_, ?_⟩
  · intro l h
    cases h
  · intro l h
    cases h

/-! ### Claim C9 -/

/-- C9: a newline at the cursor yields a structural segment of kind
Unknown carrying exactly the newline and advances by 1; concretely, in
你\n好 with 你 and 好 as entries of both dictionaries, exactly one such
segment appears between the two word segments. -/
theorem claim_C9_newline :
    (∀ (lex : Dict) (csv : CsvDict) (rest : Str),
        stepSeg lex csv ('\n' :: rest) = ⟨[⟨['\n'], SegType.unknown, none⟩], 1, []⟩) ∧
    processScript [(['你'], [dSample]), (['好'], [dSample2])]
        [(['你'], [cSample]), (['好'], [cSample2])] ['你', '\n', '好'] ⟨[], []⟩
      = some ⟨[⟨['你'], SegType.found, some (SegData.csvArr [cSample])⟩,
               ⟨['\n'], SegType.unknown, none⟩,
               ⟨['好'], SegType.found, some (SegData.csvArr [cSample2])⟩], []⟩ := by
  constructor
  · intro lex csv rest
    simp [stepSeg]
  · decide

/-! ### Claim C10 -/

/-- C10: when every key of both dictionaries is a non-empty string, every
loop iteration advances the cursor by at least one, and therefore the loop
(run with fuel equal to the text length, which the advancing steps can
never exhaust) terminates with a result for every finite text. -/
theorem claim_C10_termination :
    ∀ (lex : Dict) (csv : CsvDict),
      (∀ w ∈ lex.map Prod.fst, w ≠ []) → (∀ w ∈ csv.map Prod.fst, w ≠ []) →
      (∀ (c : Char) (rest : Str), 1 ≤ (stepSeg lex csv (c :: rest)).consumed) ∧
      (∀ (text : Str) (uk : List Str), (processLoopFuel lex csv text.length text uk).isSome) := by
  intro lex csv hlex hcsv
  exact ⟨stepSeg_advance lex csv hlex hcsv,
    fun text uk => processLoopFuel_isSome hlex hcsv (Nat.le_refl _)⟩

/-- Witness for C10 at a concrete dictionary and text. -/
theorem claim_C10_witness :
    1 ≤ (stepSeg [(['你'], [dSample])] [(['好'], [cSample])] ['你']).consumed :=
  (claim_C10_termination [(['你'], [dSample])] [(['好'], [cSample])]
    (by decide) (by decide)).1 '你' []
